import Mathlib

/-!
Shallow embedding of the lopdf core covered by the specification:
`src/parser_aux.rs` (cross-reference stream decoding, text extraction,
text substitution) and `src/object_stream.rs` (object-stream decoding).

Modelling conventions:
* Rust `Vec<u8>` / `&[u8]` byte buffers are `List Nat` (each element a byte value).
* Rust `String` / `&str` text is `List Char` (Rust strings are sequences of
  `char`s; `chars().count()` is `List.length`).
* Machine integers are `Nat`/`Int`; where 32/16-bit wrapping matters it is
  written explicitly as `% 2 ^ 32` / `% 2 ^ 16`.
* Fallible Rust functions returning `Result` become `Except Err`.
* External collaborators (the grammar parsers, stream filters, font/encoding
  lookup, and the surrounding `Document` accessors - all outside the two
  source files) are passed in as explicit function parameters, mirroring the
  interfaces in section 6 of the specification.
-/

namespace Lopdf

/-- String format tag carried by string objects (lopdf `StringFormat`). -/
inductive StringFormat where
  | literal
  | hexadecimal
deriving DecidableEq

/-- The tagged object union (lopdf `Object`).  Dictionary keys and names are
byte strings in the source; they are modelled as `String` (the keys used by
this core are ASCII). -/
inductive Object where
  | null
  | boolean (b : Bool)
  | integer (i : Int)
  | real (r : Rat)
  | string (bytes : List Nat) (fmt : StringFormat)
  | name (n : String)
  | array (elems : List Object)
  | dictionary (entries : List (String × Object))
  | reference (id : Nat × Nat)

/-- Error type covering the `Error` / `ParseError` variants reached by the
embedded code. -/
inductive Err where
  | pageNumberNotFound (n : Nat)
  | syntaxErr (s : String)
  | typeErr
  | ioErr
  | invalidXref
  | invalidContentStream
  | invalidOffset (n : Nat)
  | invalidObjectStream
  | numericCast
  | keyNotFound (k : String)
  | decodeErr (s : String)
deriving DecidableEq

/-- The per-font encoding capability (external collaborator, section 6 of the
spec): `Document::decode_text` / `Document::encode_text` delegate to it.
An empty `encodeText` result signals "not representable". -/
structure Encoding where
  decodeText : List Nat → Except Err (List Char)
  encodeText : List Char → List Nat

/-- A content operation (lopdf `Operation`). -/
structure Operation where
  operator : String
  operands : List Object

/-- First-match association-list lookup, modelling `BTreeMap::get` /
`Dictionary::get` on maps whose keys are unique. -/
def assocLookup {α β : Type} [DecidableEq α] (k : α) : List (α × β) → Option β
  | [] => none
  | (k', v) :: rest => if k = k' then some v else assocLookup k rest

mutual

/-- One arm of the `match operand` in `collect_text` from `parser_aux.rs`:
processes a single operand against the accumulator. -/
def collectTextOp (e : Encoding) : Object → List Char → List Char × Option Err
  | Object.string bytes _, t =>
    match e.decodeText bytes with
    | Except.ok s => (t ++ s, none)
    | Except.error err => (t, some err)
  | Object.array arr, t =>
    match collectText e arr t with
    | (t', none) => (t' ++ [' '], none)
    | r => r
  | Object.integer i, t => (if i < -100 then t ++ [' '] else t, none)
  | _, t => (t, none)

/-- `collect_text(text, encoding, operands)` from `parser_aux.rs`.
The Rust function mutates the accumulator through `&mut String` and returns
`Result<()>`; that is modelled by returning the final accumulator together
with `none` (success) or `some err` (the `?`-propagated error).  On error the
appends performed before the failure are kept, as with `&mut` in Rust. -/
def collectText (e : Encoding) : List Object → List Char → List Char × Option Err
  | [], t => (t, none)
  | o :: rest, t =>
    match collectTextOp e o t with
    | (t', none) => collectText e rest t'
    | r => r

end

/-- A byte-per-character ASCII encoding used as a concrete `Encoding`
instance in witnesses and counterexamples. -/
def asciiEnc : Encoding where
  decodeText := fun bs => Except.ok (bs.map Char.ofNat)
  encodeText := fun s => s.map Char.toNat

/-- `substr(s, start, len)` from `parser_aux.rs`: the characters of `s` from
index `start`, `len` of them.  The Rust `indices.nth(len.saturating_sub(1))`
makes `len = 0` behave like `len = 1`, hence the `max 1 len`. -/
def substr (s : List Char) (start len : Nat) : List Char :=
  (s.drop start).take (max 1 len)

/-- `substring(s, start)` from `parser_aux.rs`: the suffix of `s` from
character index `start` (empty when `start` is out of range). -/
def substring (s : List Char) (start : Nat) : List Char :=
  s.drop start

/-- The single-character base case of `encode` in `parser_aux.rs`:
`Document::encode_text` on the text, falling back to encoding `default_str`
when the result is empty ("not representable"). -/
def encodeOne (e : Encoding) (txt d : List Char) : List Nat :=
  let b := e.encodeText txt
  if b = [] then e.encodeText d else b

/-- `encode(encoding, txt, default_str)` from `parser_aux.rs`: a text of more
than one character is encoded character by character (the Rust loop takes
`substr(txt, cur, 1)` for each index `cur`, i.e. each character in turn, and
recurses, landing in the single-character case); otherwise the
single-character case applies directly. -/
def encode (e : Encoding) (txt d : List Char) : List Nat :=
  if txt.length > 1 then (txt.map fun c => encodeOne e [c] d).flatten
  else encodeOne e txt d

/-- The `for item in arr.iter_mut()` slot-rewriting loop inside
`try_to_replace_encoded_text` (array-operand branch).  `cur` counts string
slots already processed; `sLen`/`rLen` are the character counts of the
decoded original and of the replacement.  The Rust guard `cur == s_len - 1`
is `usize` arithmetic; it is rendered as `cur + 1 = sLen`, which agrees with
the release-mode wrapping behaviour for `s_len = 0` (the guard is then never
true).  The `break` leaves the remaining items untouched. -/
def replaceArraySlots (e : Encoding) (repl d : List Char) (sLen rLen : Nat) :
    List Object → Nat → List Object
  | [], _ => []
  | Object.string _ f :: rest, cur =>
    if cur + 1 = sLen then
      Object.string (encode e (substring repl cur) d) f :: rest
    else if rLen < cur then
      Object.null :: replaceArraySlots e repl d sLen rLen rest (cur + 1)
    else
      Object.string (encode e (substr repl cur 1) d) f ::
        replaceArraySlots e repl d sLen rLen rest (cur + 1)
  | o :: rest, cur => o :: replaceArraySlots e repl d sLen rLen rest cur

/-- `try_to_replace_encoded_text` from `parser_aux.rs`, acting on the operand
list of one `Tj`/`TJ` operation.  String-operand decode failures propagate
(`?`); a plain string equal to the target is re-encoded; an array whose
collected text equals the target has its slots rewritten by
`replaceArraySlots`. -/
def tryToReplaceEncodedText (e : Encoding) (target repl d : List Char) :
    List Object → Except Err (List Object)
  | [] => Except.ok []
  | Object.string bytes f :: rest =>
    match e.decodeText bytes with
    | Except.error err => Except.error err
    | Except.ok decoded =>
      let b' := if decoded = target then encode e repl d else bytes
      (tryToReplaceEncodedText e target repl d rest).map fun r => Object.string b' f :: r
  | Object.array arr :: rest =>
    match collectText e arr [] with
    | (_, some err) => Except.error err
    | (s, none) =>
      let arr' := if s = target then replaceArraySlots e repl d s.length repl.length arr 0
                  else arr
      (tryToReplaceEncodedText e target repl d rest).map fun r => Object.array arr' :: r
  | o :: rest =>
    (tryToReplaceEncodedText e target repl d rest).map fun r => o :: r

/-- An operand that `collect_text` passes over without touching the
accumulator: not a string, not an array, and if an integer then not below
the −100 kerning threshold. -/
def isNeutral : Object → Prop
  | Object.string _ _ => False
  | Object.array _ => False
  | Object.integer i => -100 ≤ i
  | _ => True

/-- `SlotChars e arr cs`: the array `arr` consists of string slots, each
decoding to exactly one character under `e`, interleaved with neutral items;
`cs` lists the decoded characters in slot order.  This is the
"one decoded character per string slot" situation that claim C3 describes
(its slot indices only make sense when slot index and character index
coincide). -/
inductive SlotChars (e : Encoding) : List Object → List Char → Prop where
  | nil : SlotChars e [] []
  | str {b : List Nat} {f : StringFormat} {c : Char} {rest : List Object} {cs : List Char} :
      e.decodeText b = Except.ok [c] → SlotChars e rest cs →
      SlotChars e (Object.string b f :: rest) (c :: cs)
  | skip {o : Object} {rest : List Object} {cs : List Char} :
      isNeutral o → SlotChars e rest cs → SlotChars e (o :: rest) cs

/-- The slot rewriting that claim C3 describes, written from the claim's
words: the slot at index `len(original) − 1` takes the whole remaining
suffix of the replacement; a slot at an index strictly beyond the
replacement's character count becomes the null object; the slot at index
exactly `rLen` (where the replacement has no character left) receives the
encoding of the empty text, i.e. the encoded default string — this branch is
where the amended claim departs from the original claim, which nulled it;
every earlier slot receives exactly one re-encoded replacement character;
non-string items are untouched and not counted. -/
def claimedRedistribute (e : Encoding) (repl d : List Char) (sLen rLen : Nat) :
    List Object → Nat → List Object
  | [], _ => []
  | Object.string _ f :: rest, k =>
    (if k = sLen - 1 then Object.string (encode e (substring repl k) d) f
     else if rLen < k then Object.null
     else if k = rLen then Object.string (encode e [] d) f
     else Object.string (encode e (substr repl k 1) d) f)
      :: claimedRedistribute e repl d sLen rLen rest (k + 1)
  | o :: rest, k => o :: claimedRedistribute e repl d sLen rLen rest k

/-- `Object::as_name()`: a name object yields its text, anything else is a
type error. -/
def asName : Object → Except Err String
  | Object.name n => Except.ok n
  | _ => Except.error Err.typeErr

/-- The `Document` surface consumed by the extraction/substitution engines
(section 6 of the spec): `page_iter` (as the ordered list of page ids),
`get_pages` (page-number → page-id map), font and encoding lookup, page
content access, the content-operator codec, and content persistence.  All of
these live outside the two embedded source files. -/
structure DocEnv where
  pageIds : List (Nat × Nat)
  pages : List (Nat × (Nat × Nat))
  getPageFonts : Nat × Nat → Except Err (List (String × Nat))
  getFontEncoding : Nat → Except Err Encoding
  getPageContent : Nat × Nat → Except Err (List Nat)
  decodeContent : List Nat → Except Err (List Operation)
  encodeContent : List Operation → Except Err (List Nat)
  changePageContent : Nat × Nat → List Nat → Except Err Unit

/-- The encoding-map construction of `replace_text` / `replace_partial_text`:
`.map(|(name, font)| font.get_font_encoding(self).map(|it| (name, it)))
.collect::<Result<BTreeMap<_, _>>>()` — the first resolution failure, in
iteration order, fails the whole collection. -/
def collectEncodings (getEnc : Nat → Except Err Encoding) :
    List (String × Nat) → Except Err (List (String × Encoding))
  | [] => Except.ok []
  | (n, f) :: rest =>
    match getEnc f with
    | Except.error err => Except.error err
    | Except.ok e =>
      match collectEncodings getEnc rest with
      | Except.error err => Except.error err
      | Except.ok r => Except.ok ((n, e) :: r)

/-- The `for operation in &mut content.operations` loop of `replace_text`:
`Tf` switches the current encoding (a missing operand or a non-name operand
is fatal), `Tj`/`TJ` under an active encoding runs
`try_to_replace_encoded_text` (its errors are fatal), `Tj`/`TJ` without an
active encoding is skipped with a warning, all other operators pass
through. -/
def replaceOpsLoop (encodings : List (String × Encoding)) (target repl d : List Char) :
    List Operation → Option Encoding → Except Err (List Operation)
  | [], _ => Except.ok []
  | op :: rest, e? =>
    if op.operator = "Tf" then
      match op.operands.head? with
      | none => Except.error (Err.syntaxErr "missing font operand")
      | some o =>
        match asName o with
        | Except.error err => Except.error err
        | Except.ok fname =>
          (replaceOpsLoop encodings target repl d rest (assocLookup fname encodings)).map
            fun r => op :: r
    else if op.operator = "Tj" ∨ op.operator = "TJ" then
      match e? with
      | some enc =>
        match tryToReplaceEncodedText enc target repl d op.operands with
        | Except.error err => Except.error err
        | Except.ok ops' =>
          (replaceOpsLoop encodings target repl d rest e?).map
            fun r => { op with operands := ops' } :: r
      | none => (replaceOpsLoop encodings target repl d rest e?).map fun r => op :: r
    else (replaceOpsLoop encodings target repl d rest e?).map fun r => op :: r

/-- `Document::replace_text` from `parser_aux.rs`.  The 1-based page number
is turned into a 0-based index by `saturating_sub(1)` (Nat subtraction);
every `?` in the source is an explicit error match here. -/
def replaceText (env : DocEnv) (page_number : Nat) (text other_text : List Char)
    (default_str : Option (List Char)) : Except Err Unit :=
  match env.pageIds[page_number - 1]? with
  | none => Except.error (Err.pageNumberNotFound page_number)
  | some page_id =>
    match env.getPageFonts page_id with
    | Except.error e => Except.error e
    | Except.ok fonts =>
      match collectEncodings env.getFontEncoding fonts with
      | Except.error e => Except.error e
      | Except.ok encodings =>
        match env.getPageContent page_id with
        | Except.error e => Except.error e
        | Except.ok content_data =>
          match env.decodeContent content_data with
          | Except.error e => Except.error e
          | Except.ok content =>
            match replaceOpsLoop encodings text other_text (default_str.getD [])
                content none with
            | Except.error e => Except.error e
            | Except.ok ops =>
              match env.encodeContent ops with
              | Except.error e => Except.error e
              | Except.ok modified => env.changePageContent page_id modified

/-- `List::isPrefixOf`-based scan modelling Rust `str::contains`: does `pat`
occur (contiguously) anywhere in the text?  An empty pattern matches. -/
def containsPat (pat : List Char) : List Char → Bool
  | [] => pat.isPrefixOf []
  | c :: rest => pat.isPrefixOf (c :: rest) || containsPat pat rest

/-- Non-overlapping left-to-right replacement scan for a non-empty pattern
`p :: ps`, modelling Rust `str::replace`. -/
def scanReplace (p : Char) (ps rep : List Char) : List Char → List Char
  | [] => []
  | c :: rest =>
    if (p :: ps).isPrefixOf (c :: rest) then rep ++ scanReplace p ps rep (rest.drop ps.length)
    else c :: scanReplace p ps rep rest
termination_by s => s.length
decreasing_by
  all_goals simp_wf
  all_goals omega

/-- Non-overlapping left-to-right match count for a non-empty pattern,
modelling Rust `str::matches(pat).count()`. -/
def scanCount (p : Char) (ps : List Char) : List Char → Nat
  | [] => 0
  | c :: rest =>
    if (p :: ps).isPrefixOf (c :: rest) then 1 + scanCount p ps (rest.drop ps.length)
    else scanCount p ps rest
termination_by s => s.length
decreasing_by
  all_goals simp_wf
  all_goals omega

/-- Rust `str::replace(pat, rep)`: with an empty pattern, `rep` is inserted
at every character boundary; otherwise a non-overlapping scan. -/
def strReplaceAll (s pat rep : List Char) : List Char :=
  match pat with
  | [] => rep ++ (s.map fun c => c :: rep).flatten
  | p :: ps => scanReplace p ps rep s

/-- Rust `str::matches(pat).count()`: an empty pattern matches at every
boundary (`len + 1` times). -/
def strCountMatches (s pat : List Char) : Nat :=
  match pat with
  | [] => s.length + 1
  | p :: ps => scanCount p ps s

/-- Rust `str::contains`. -/
def strContainsPat (s pat : List Char) : Bool := containsPat pat s

/-- `encode_with_fallback` from `parser_aux.rs`: whole-string encoding if it
succeeds, otherwise the per-character `encode` with the default fallback. -/
def encodeWithFallback (e : Encoding) (text d : List Char) : List Nat :=
  let enc := e.encodeText text
  if enc = [] then encode e text d else enc

/-- `replace_partial_in_array` from `parser_aux.rs`: each string item of the
array is independently searched/replaced (no redistribution across slots);
non-string items, including nested arrays, are untouched; decode failures
propagate. -/
def replacePartialInArray (e : Encoding) (search repl d : List Char) :
    List Object → Except Err (List Object × Nat)
  | [] => Except.ok ([], 0)
  | Object.string bytes f :: rest =>
    match e.decodeText bytes with
    | Except.error err => Except.error err
    | Except.ok decoded =>
      (replacePartialInArray e search repl d rest).map fun r =>
        if strContainsPat decoded search then
          (Object.string (encodeWithFallback e (strReplaceAll decoded search repl) d) f :: r.1,
            strCountMatches decoded search + r.2)
        else (Object.string bytes f :: r.1, r.2)
  | o :: rest =>
    (replacePartialInArray e search repl d rest).map fun r => (o :: r.1, r.2)

/-- `replace_partial_in_operation` from `parser_aux.rs`. -/
def replacePartialInOperation (e : Encoding) (search repl d : List Char) :
    List Object → Except Err (List Object × Nat)
  | [] => Except.ok ([], 0)
  | Object.string bytes f :: rest =>
    match e.decodeText bytes with
    | Except.error err => Except.error err
    | Except.ok decoded =>
      (replacePartialInOperation e search repl d rest).map fun r =>
        if strContainsPat decoded search then
          (Object.string (encodeWithFallback e (strReplaceAll decoded search repl) d) f :: r.1,
            strCountMatches decoded search + r.2)
        else (Object.string bytes f :: r.1, r.2)
  | Object.array arr :: rest =>
    match replacePartialInArray e search repl d arr with
    | Except.error err => Except.error err
    | Except.ok ra =>
      (replacePartialInOperation e search repl d rest).map fun r =>
        (Object.array ra.1 :: r.1, ra.2 + r.2)
  | o :: rest =>
    (replacePartialInOperation e search repl d rest).map fun r => (o :: r.1, r.2)

/-- The operator loop of `replace_partial_text`, accumulating the
replacement count. -/
def partialOpsLoop (encodings : List (String × Encoding)) (search repl d : List Char) :
    List Operation → Option Encoding → Except Err (List Operation × Nat)
  | [], _ => Except.ok ([], 0)
  | op :: rest, e? =>
    if op.operator = "Tf" then
      match op.operands.head? with
      | none => Except.error (Err.syntaxErr "missing font operand")
      | some o =>
        match asName o with
        | Except.error err => Except.error err
        | Except.ok fname =>
          (partialOpsLoop encodings search repl d rest (assocLookup fname encodings)).map
            fun r => (op :: r.1, r.2)
    else if op.operator = "Tj" ∨ op.operator = "TJ" then
      match e? with
      | some enc =>
        match replacePartialInOperation enc search repl d op.operands with
        | Except.error err => Except.error err
        | Except.ok ro =>
          (partialOpsLoop encodings search repl d rest e?).map
            fun r => ({ op with operands := ro.1 } :: r.1, ro.2 + r.2)
      | none => (partialOpsLoop encodings search repl d rest e?).map fun r => (op :: r.1, r.2)
    else (partialOpsLoop encodings search repl d rest e?).map fun r => (op :: r.1, r.2)

/-- `Document::replace_partial_text` from `parser_aux.rs`: same page
selection and encoding-map construction as `replace_text`; persists the
modified content only when the replacement count is positive; returns the
count. -/
def replacePartialText (env : DocEnv) (page_number : Nat)
    (search_text replacement_text : List Char) (default_char : Option (List Char)) :
    Except Err Nat :=
  match env.pageIds[page_number - 1]? with
  | none => Except.error (Err.pageNumberNotFound page_number)
  | some page_id =>
    match env.getPageFonts page_id with
    | Except.error e => Except.error e
    | Except.ok fonts =>
      match collectEncodings env.getFontEncoding fonts with
      | Except.error e => Except.error e
      | Except.ok encodings =>
        match env.getPageContent page_id with
        | Except.error e => Except.error e
        | Except.ok content_data =>
          match env.decodeContent content_data with
          | Except.error e => Except.error e
          | Except.ok content =>
            match partialOpsLoop encodings search_text replacement_text
                (default_char.getD ['?']) content none with
            | Except.error e => Except.error e
            | Except.ok r =>
              if r.2 > 0 then
                match env.encodeContent r.1 with
                | Except.error e => Except.error e
                | Except.ok modified =>
                  match env.changePageContent page_id modified with
                  | Except.error e => Except.error e
                  | Except.ok _ => Except.ok r.2
              else Except.ok r.2

/-- The encoding-map construction of `extract_text_chunks_from_page`:
`filter_map` keeps successfully resolved encodings and pushes each
resolution failure into the collected chunk list (in font iteration
order). -/
def buildEncodings (getEnc : Nat → Except Err Encoding) :
    List (String × Nat) → List (Except Err (List Char)) × List (String × Encoding)
  | [] => ([], [])
  | (n, f) :: rest =>
    let r := buildEncodings getEnc rest
    match getEnc f with
    | Except.ok e => (r.1, (n, e) :: r.2)
    | Except.error err => (Except.error err :: r.1, r.2)

/-- The `if !current_text.is_empty() { push(Ok(text)) }` flush of the
extraction loop. -/
def flushChunk (acc : List (Except Err (List Char))) (t : List Char) :
    List (Except Err (List Char)) × List Char :=
  if t = [] then (acc, t) else (acc ++ [Except.ok t], [])

/-- The `for operation in &content.operations` loop of
`extract_text_chunks_from_page`: `Tf` flushes the current text and switches
encoding (a missing operand is fatal; a non-name operand records an error
chunk and unsets the encoding), `Tj`/`TJ` decodes under the active encoding
(a decode failure records an error chunk, keeping the partial text),
`ET` appends a newline unless one is already there, everything else passes
through; at the end a non-empty accumulator is flushed. -/
def extractLoop (encodings : List (String × Encoding)) :
    List Operation → Option Encoding → List Char → List (Except Err (List Char)) →
      Except Err (List (Except Err (List Char)))
  | [], _, t, acc => Except.ok (if t = [] then acc else acc ++ [Except.ok t])
  | op :: rest, e?, t, acc =>
    if op.operator = "Tf" then
      match op.operands.head? with
      | none => Except.error (Err.syntaxErr "missing font operand")
      | some o =>
        match asName o with
        | Except.ok fname =>
          let p := flushChunk acc t
          extractLoop encodings rest (assocLookup fname encodings) p.2 p.1
        | Except.error err =>
          let p := flushChunk (acc ++ [Except.error err]) t
          extractLoop encodings rest none p.2 p.1
    else if op.operator = "Tj" ∨ op.operator = "TJ" then
      match e? with
      | some enc =>
        match collectText enc op.operands t with
        | (t', none) => extractLoop encodings rest e? t' acc
        | (t', some err) => extractLoop encodings rest e? t' (acc ++ [Except.error err])
      | none => extractLoop encodings rest e? t acc
    else if op.operator = "ET" then
      extractLoop encodings rest e? (if t.getLast? = some '\n' then t else t ++ ['\n']) acc
    else extractLoop encodings rest e? t acc

/-- `Document::extract_text_chunks_from_page` from `parser_aux.rs`. -/
def extractTextChunksFromPage (env : DocEnv) (page_number : Nat) :
    Except Err (List (Except Err (List Char))) :=
  match assocLookup page_number env.pages with
  | none => Except.error (Err.pageNumberNotFound page_number)
  | some page_id =>
    match env.getPageFonts page_id with
    | Except.error e => Except.error e
    | Except.ok fonts =>
      let be := buildEncodings env.getFontEncoding fonts
      match env.getPageContent page_id with
      | Except.error e => Except.error e
      | Except.ok content_data =>
        match env.decodeContent content_data with
        | Except.error e => Except.error e
        | Except.ok content => extractLoop be.2 content none [] be.1

/-- `Document::extract_text_chunks`: `flat_map` over the requested page
numbers, flattening each page's chunk list and turning a page-level error
into a single error element. -/
def extractTextChunks (env : DocEnv) (page_numbers : List Nat) :
    List (Except Err (List Char)) :=
  (page_numbers.map fun n =>
    match extractTextChunksFromPage env n with
    | Except.ok cs => cs
    | Except.error e => [Except.error e]).flatten

/-- The fold inside `Document::extract_text`: concatenate successful chunk
texts, stopping at (and returning) the first error. -/
def concatChunks : List (Except Err (List Char)) → Except Err (List Char)
  | [] => Except.ok []
  | Except.ok s :: rest => (concatChunks rest).map fun r => s ++ r
  | Except.error e :: _ => Except.error e

/-- `Document::extract_text` from `parser_aux.rs`. -/
def extractText (env : DocEnv) (page_numbers : List Nat) : Except Err (List Char) :=
  concatChunks (extractTextChunks env page_numbers)

/-- The texts of the successful chunks, in order. -/
def okTexts (l : List (Except Err (List Char))) : List (List Char) :=
  l.filterMap fun c => match c with
    | Except.ok s => some s
    | Except.error _ => none

/-- A concrete document environment whose single page has one font whose
encoding resolution fails. -/
def envNoEnc : DocEnv where
  pageIds := [(1, 0)]
  pages := [(1, (1, 0))]
  getPageFonts := fun _ => Except.ok [("F1", 0)]
  getFontEncoding := fun _ => Except.error (Err.decodeErr "font encoding unavailable")
  getPageContent := fun _ => Except.ok []
  decodeContent := fun _ => Except.ok []
  encodeContent := fun _ => Except.ok []
  changePageContent := fun _ _ => Except.ok ()

/-- A concrete document environment with a single empty page and no fonts. -/
def envEmptyPage : DocEnv where
  pageIds := [(1, 0)]
  pages := [(1, (1, 0))]
  getPageFonts := fun _ => Except.ok []
  getFontEncoding := fun _ => Except.error Err.typeErr
  getPageContent := fun _ => Except.ok []
  decodeContent := fun _ => Except.ok []
  encodeContent := fun _ => Except.ok []
  changePageContent := fun _ _ => Except.ok ()

/-- The kinds of cross-reference index encodings (lopdf `XrefType`; this
core only builds `CrossReferenceStream` ones). -/
inductive XrefType where
  | crossReferenceStream
  | crossReferenceTable
deriving DecidableEq

/-- A cross-reference location entry (lopdf `XrefEntry`). -/
inductive XrefEntry where
  | free
  | normal (offset : Nat) (generation : Nat)
  | compressed (container : Nat) (index : Nat)
deriving DecidableEq

/-- The cross-reference table (lopdf `Xref`).  The entry map is a list;
`insert` conses, and the first match shadows older entries, mirroring
hash-map insertion-replaces semantics. -/
structure Xref where
  size : Nat
  xtype : XrefType
  entries : List (Nat × XrefEntry)
deriving DecidableEq

def Xref.insert (x : Xref) (id : Nat) (e : XrefEntry) : Xref :=
  { x with entries := (id, e) :: x.entries }

/-- A PDF dictionary: byte-string keys (modelled as ASCII `String`s, unique)
to objects. -/
abbrev Dictionary := List (String × Object)

/-- `Dictionary::get`: `Ok` with the value, or a key-not-found error. -/
def dictGet (d : Dictionary) (k : String) : Except Err Object :=
  match assocLookup k d with
  | some v => Except.ok v
  | none => Except.error (Err.keyNotFound k)

/-- `Dictionary::remove` on unique-key dictionaries. -/
def removeKey (d : Dictionary) (k : String) : Dictionary :=
  d.filter fun p => p.1 != k

/-- `Object::as_i64`. -/
def asI64 : Object → Except Err Int
  | Object.integer i => Except.ok i
  | _ => Except.error Err.typeErr

/-- `Object::as_array`. -/
def asArray : Object → Except Err (List Object)
  | Object.array a => Except.ok a
  | _ => Except.error Err.typeErr

/-- The element loop of `parse_integer_array`: every element must be an
integer. -/
def intsOf : List Object → Except Err (List Int)
  | [] => Except.ok []
  | o :: rest =>
    match asI64 o with
    | Except.error e => Except.error e
    | Except.ok i =>
      match intsOf rest with
      | Except.error e => Except.error e
      | Except.ok r => Except.ok (i :: r)

/-- `parse_integer_array` from `parser_aux.rs`. -/
def parseIntegerArray (o : Object) : Except Err (List Int) :=
  match asArray o with
  | Except.error e => Except.error e
  | Except.ok a => intsOf a

/-- A stream object: dictionary plus raw content bytes. -/
structure StreamObj where
  dict : Dictionary
  content : List Nat

/-- `Stream::is_compressed`: the dictionary has a `Filter` key. -/
def isCompressed (s : StreamObj) : Bool :=
  match dictGet s.dict "Filter" with
  | Except.ok _ => true
  | Except.error _ => false

/-- `read_big_endian_integer(reader, buffer)` from `parser_aux.rs`, reading
`w` bytes at `pos`: `read_exact` fails (fatal I/O error) if fewer than `w`
bytes remain; otherwise the bytes are folded big-endian with u32 wrapping
(`(value << 8) + byte`).  Returns the value and the advanced position.
Reading zero bytes succeeds with value 0. -/
def readBE (content : List Nat) (pos w : Nat) : Except Err (Nat × Nat) :=
  if pos + w ≤ content.length then
    Except.ok
      (((content.drop pos).take w).foldl (fun v b => (v * 256 + b) % 2 ^ 32) 0, pos + w)
  else Except.error Err.ioErr

/-- One row of `decode_xref_stream`'s `for j in 0..count` loop: read the type
field (width `W[0]`, defaulting to 1 when that width is zero), then dispatch.
Types 0, 1 and 2 read the two remaining fields (type 1 skips the generation
read when `W[2] = 0`, defaulting it to 0); any other type value falls to the
`_ => {}` arm, which reads nothing further and records no entry. -/
def processRow (w0 w1 w2 : Nat) (content : List Nat) (pos : Nat) :
    Except Err (Option XrefEntry × Nat) :=
  match (if w0 ≠ 0 then readBE content pos w0 else Except.ok (1, pos)) with
  | Except.error e => Except.error e
  | Except.ok t =>
    if t.1 = 0 then
      match readBE content t.2 w1 with
      | Except.error e => Except.error e
      | Except.ok r2 =>
        match readBE content r2.2 w2 with
        | Except.error e => Except.error e
        | Except.ok r3 => Except.ok (none, r3.2)
    else if t.1 = 1 then
      match readBE content t.2 w1 with
      | Except.error e => Except.error e
      | Except.ok r2 =>
        match (if w2 ≠ 0 then readBE content r2.2 w2 else Except.ok (0, r2.2)) with
        | Except.error e => Except.error e
        | Except.ok g => Except.ok (some (XrefEntry.normal r2.1 (g.1 % 2 ^ 16)), g.2)
    else if t.1 = 2 then
      match readBE content t.2 w1 with
      | Except.error e => Except.error e
      | Except.ok r2 =>
        match readBE content r2.2 w2 with
        | Except.error e => Except.error e
        | Except.ok r3 => Except.ok (some (XrefEntry.compressed r2.1 (r3.1 % 2 ^ 16)), r3.2)
    else Except.ok (none, t.2)

/-- The `for j in 0..count` loop: `n` rows remain, `j` rows already done in
this pair; a recorded entry is inserted at object number
`(start + j) as u32`. -/
def rowsLoop (w0 w1 w2 : Nat) (content : List Nat) (start : Int) :
    Xref → Nat → Nat → Nat → Except Err (Xref × Nat)
  | x, pos, _, 0 => Except.ok (x, pos)
  | x, pos, j, n + 1 =>
    match processRow w0 w1 w2 content pos with
    | Except.error e => Except.error e
    | Except.ok r =>
      let x' := match r.1 with
        | some e => x.insert ((start + (j : Int)).emod (2 ^ 32)).toNat e
        | none => x
      rowsLoop w0 w1 w2 content start x' r.2 (j + 1) n

/-- The `for i in 0..section_indice.len() / 2` loop over `(start, count)`
pairs; a trailing odd element is ignored.  A negative `count` iterates zero
times (`0..count` on `i64`), hence `count.toNat`. -/
def pairsLoop (w0 w1 w2 : Nat) (content : List Nat) :
    List Int → Xref → Nat → Except Err (Xref × Nat)
  | start :: count :: rest, x, pos =>
    match rowsLoop w0 w1 w2 content start x pos 0 count.toNat with
    | Except.error e => Except.error e
    | Except.ok r => pairsLoop w0 w1 w2 content rest r.1 r.2
  | _, x, pos => Except.ok (x, pos)

/-- The xref-building part of `decode_xref_stream` (everything before the
final key removal): read `Size` (fatal when missing or non-integer, mapped
to `InvalidXref`), default `Index` to `[0, Size]` when absent or unparsable,
read `W` (fatal; fewer than three elements or a negative width is fatal),
then run the row pass. -/
def decodeXrefRows (dict : Dictionary) (content : List Nat) : Except Err Xref :=
  match dictGet dict "Size" with
  | Except.error _ => Except.error Err.invalidXref
  | Except.ok szo =>
    match asI64 szo with
    | Except.error _ => Except.error Err.invalidXref
    | Except.ok size =>
      let x0 : Xref :=
        { size := (size.emod (2 ^ 32)).toNat, xtype := XrefType.crossReferenceStream,
          entries := [] }
      let sectionIndice : List Int :=
        match dictGet dict "Index" with
        | Except.error _ => [0, size]
        | Except.ok io =>
          match parseIntegerArray io with
          | Except.error _ => [0, size]
          | Except.ok v => v
      match dictGet dict "W" with
      | Except.error _ => Except.error Err.invalidXref
      | Except.ok wo =>
        match parseIntegerArray wo with
        | Except.error _ => Except.error Err.invalidXref
        | Except.ok fieldWidths =>
          match fieldWidths with
          | w0 :: w1 :: w2 :: _ =>
            if w0 < 0 ∨ w1 < 0 ∨ w2 < 0 then Except.error Err.invalidXref
            else
              match pairsLoop w0.toNat w1.toNat w2.toNat content sectionIndice x0 0 with
              | Except.error e => Except.error e
              | Except.ok r => Except.ok r.1
          | _ => Except.error Err.invalidXref

/-- `decode_xref_stream` after decompression: build the xref, then return it
together with the dictionary stripped of `Length`, `W` and `Index`. -/
def decodeXrefInner (dict : Dictionary) (content : List Nat) :
    Except Err (Xref × Dictionary) :=
  match decodeXrefRows dict content with
  | Except.error e => Except.error e
  | Except.ok x =>
    Except.ok (x, removeKey (removeKey (removeKey dict "Length") "W") "Index")

/-- `decode_xref_stream(stream)` from `parser_aux.rs`.  Modelled from the
spec: `Stream::decompress` is the external filter capability
(`decompress(stream) -> bytes`, section 1 of the spec), so it yields the
decoded content bytes and leaves the dictionary as it was; its failure
propagates. -/
def decodeXrefStream (decompress : StreamObj → Except Err (List Nat))
    (stream : StreamObj) : Except Err (Xref × Dictionary) :=
  match (if isCompressed stream then decompress stream else Except.ok stream.content) with
  | Except.error e => Except.error e
  | Except.ok c => decodeXrefInner stream.dict c

/-- A concrete uncompressed cross-reference stream: `Size 1`, `W [1,1,1]`,
one type-1 row `(1, 0, 0)`, plus `Length` and an unrelated `Foo` key. -/
def streamW : StreamObj where
  dict := [("Size", Object.integer 1),
    ("W", Object.array [Object.integer 1, Object.integer 1, Object.integer 1]),
    ("Length", Object.integer 3), ("Foo", Object.null)]
  content := [1, 0, 0]

/-- The xref decoded from `streamW`. -/
def xrefW : Xref where
  size := 1
  xtype := XrefType.crossReferenceStream
  entries := [(0, XrefEntry.normal 0 0)]

/-- `chunks(2)` over the even-truncated number list of `ObjectStream::new`
(`let len = numbers.len() / 2 * 2` keeps only complete pairs, discarding an
odd trailing element). -/
def toPairs : List (Option Nat) → List (Option Nat × Option Nat)
  | a :: b :: rest => (a, b) :: toPairs rest
  | _ => []

/-- The `chunks_filter_map` closure of `ObjectStream::new`, folded over the
index pairs: a pair contributes an entry only when both numbers parsed
(`chunk[0]?` / `chunk[1]?`), the absolute offset `First + relative` is
within the content, and the external single-object parser returns an
object; the generation of every produced id is 0.  A failing pair is
skipped, never fatal. -/
def objStreamEntries (parse : List Nat → Option Object) (content : List Nat) (first : Nat) :
    List (Option Nat × Option Nat) → List ((Nat × Nat) × Object)
  | [] => []
  | (a, b) :: rest =>
    let tail := objStreamEntries parse content first rest
    match a, b with
    | some id, some off =>
      if content.length ≤ first + off then tail
      else
        match parse (content.drop (first + off)) with
        | some obj => ((id, 0), obj) :: tail
        | none => tail
    | _, _ => tail

/-- ASCII whitespace bytes recognized by `split_whitespace`. -/
def isWSByte (b : Nat) : Bool :=
  b == 9 || b == 10 || b == 11 || b == 12 || b == 13 || b == 32

/-- Whitespace splitting of the index block (`split_whitespace`), with `cur`
the reversed bytes of the token in progress. -/
def lexTokensAux : List Nat → List Nat → List (List Nat)
  | cur, [] => if cur = [] then [] else [cur.reverse]
  | cur, b :: rest =>
    if isWSByte b then
      if cur = [] then lexTokensAux [] rest else cur.reverse :: lexTokensAux [] rest
    else lexTokensAux (b :: cur) rest

def lexTokens (bs : List Nat) : List (List Nat) := lexTokensAux [] bs

/-- `u32::from_str` on a token: an optional leading `+`, then at least one
decimal digit, value below `2^32`; anything else (including overflow) is
`none`. -/
def parseU32 (tok : List Nat) : Option Nat :=
  let digits := match tok with
    | 43 :: rest => rest
    | _ => tok
  if digits = [] then none
  else if digits.all (fun b => decide (48 ≤ b) && decide (b ≤ 57)) then
    let v := digits.foldl (fun a b => a * 10 + (b - 48)) 0
    if v < 2 ^ 32 then some v else none
  else none

/-- The index-block number extraction of `ObjectStream::new`:
`split_whitespace` then `u32::from_str(...).ok()` per token. -/
def parseIndexNumbers (bs : List Nat) : List (Option Nat) :=
  (lexTokens bs).map parseU32

/-- The `First` read of `ObjectStream::new`: integer (fatal when missing or
non-numeric), then `try_into::<usize>` fails on negatives with a
numeric-cast error. -/
def streamFirstOffset (dict : Dictionary) : Except Err Nat :=
  match dictGet dict "First" with
  | Except.error e => Except.error e
  | Except.ok o =>
    match asI64 o with
    | Except.error e => Except.error e
    | Except.ok i => if i < 0 then Except.error Err.numericCast else Except.ok i.toNat

/-- `ObjectStream::new` from `object_stream.rs`, after the best-effort
decompression (`let _ = stream.decompress()` — its result is ignored, so
the function is modelled on the post-decompression dictionary and content).
Empty content yields an empty object set; `First` and `N` reads are fatal;
an out-of-range `First` is an invalid-offset error.  The `from_utf8` check
on the index block is approximated by requiring ASCII bytes: on ASCII input
this is exact, and every invalid UTF-8 sequence contains a byte ≥ 128; a
valid non-ASCII UTF-8 index block (whose tokens could never parse as `u32`
anyway) is conservatively rejected here whereas Rust parses it to `None`
tokens.  The declared-`N` cross-check only logs a warning and is dropped.
Returns the entry list; the source collects it into a `BTreeMap` (see
`toMap`). -/
def objectStreamNew (parse : List Nat → Option Object) (dict : Dictionary)
    (content : List Nat) : Except Err (List ((Nat × Nat) × Object)) :=
  if content = [] then Except.ok []
  else
    match streamFirstOffset dict with
    | Except.error e => Except.error e
    | Except.ok first =>
      if first ≤ content.length then
        if (content.take first).all (fun b => decide (b < 128)) then
          match dictGet dict "N" with
          | Except.error e => Except.error e
          | Except.ok no =>
            match asI64 no with
            | Except.error e => Except.error e
            | Except.ok _ =>
              Except.ok (objStreamEntries parse content first
                (toPairs (parseIndexNumbers (content.take first))))
        else Except.error Err.invalidObjectStream
      else Except.error (Err.invalidOffset first)

/-- The object numbers of the index pairs whose first component parsed. -/
def pairIds (numbers : List (Option Nat)) : List Nat :=
  (toPairs numbers).filterMap fun p => p.1

/-- The id-keyed map assembled from the entry list, as the `collect()` into
a `BTreeMap` does it: a later entry for the same id overwrites an earlier
one, so lookup takes the last occurrence (first in the reversed list). -/
def toMap (l : List ((Nat × Nat) × Object)) (k : Nat × Nat) : Option Object :=
  assocLookup k l.reverse

/-- A concrete external single-object parser for witnesses. -/
def parse0 : List Nat → Option Object := fun _ => some Object.null

/-- A concrete object-stream dictionary: `First 4`, `N 1`. -/
def dict5 : Dictionary := [("First", Object.integer 4), ("N", Object.integer 1)]

/-- Concrete object-stream content: index block `"3 0 "` then one payload
byte. -/
def content5 : List Nat := [51, 32, 48, 32, 99]

/-- Concrete content for the sequential/parallel witness: index block
`"1 2 "` is irrelevant there — the entries are built from an explicit pair
list over this 6-byte content. -/
def content6 : List Nat := [49, 32, 50, 32, 7, 8]

/-! ## Theorems -/

/-- C4 counterexample input: the claim says a numeric operand equal to −100
gets a space; `collect_text` tests `*i < -100`, so −100 gets none. -/
theorem claim_C4_counterexample :
    collectText asciiEnc [Object.integer (-100)] [] = ([], none) ∧
    ([] : List Char) ≠ [' '] := by
  constructor
  · rfl
  · decide

/-- C4 (amended): during text extraction a numeric operand appends a single
space exactly when its value is strictly less than −100 (so −100 itself
appends nothing), including when it occurs among other operands. -/
theorem claim_C4 :
    ∀ (e : Encoding) (i : Int) (rest : List Object) (acc : List Char),
      collectText e (Object.integer i :: rest) acc =
        collectText e rest (if i < -100 then acc ++ [' '] else acc) ∧
      (collectText e [Object.integer i] acc = (acc ++ [' '], none) ↔ i < -100) := by
  intro e i rest acc
  constructor
  · rfl
  · by_cases h : i < -100
    · simp only [collectText, collectTextOp, if_pos h]
      simp [h]
    · have h1 : collectText e [Object.integer i] acc = (acc, none) := by
        simp [collectText, collectTextOp, h]
      rw [h1]
      constructor
      · intro hc
        have h2 := congrArg (fun p => p.1.length) hc
        simp at h2
      · intro hi
        exact absurd hi h

/-- C10: recursing into an array operand always appends exactly one space
afterwards (on success), so a successful `TJ` whose operand is an array
leaves the accumulated text ending in a space regardless of the array's
contents. -/
theorem claim_C10 :
    ∀ (e : Encoding) (arr rest : List Object) (acc : List Char),
      (collectText e (Object.array arr :: rest) acc =
        match collectText e arr acc with
        | (t', none) => collectText e rest (t' ++ [' '])
        | (t', some err) => (t', some err)) ∧
      (∀ s, collectText e [Object.array arr] acc = (s, none) → ∃ t, s = t ++ [' ']) := by
  intro e arr rest acc
  rcases hh : collectText e arr acc with ⟨t', err?⟩
  constructor
  · cases err? with
    | none => simp [collectText, collectTextOp, hh]
    | some err => simp [collectText, collectTextOp, hh]
  · intro s hs
    cases err? with
    | none =>
      have h1 : collectText e [Object.array arr] acc = (t' ++ [' '], none) := by
        simp [collectText, collectTextOp, hh]
      rw [h1] at hs
      exact ⟨t', (Prod.mk.injEq _ _ _ _ ▸ hs).1.symm⟩
    | some err =>
      have h1 : collectText e [Object.array arr] acc = (t', some err) := by
        simp [collectText, collectTextOp, hh]
      rw [h1] at hs
      simp at hs

/-- C10 witness: a concrete array operand, extracted under `asciiEnc`,
produces text ending in a space. -/
theorem claim_C10_witness :
    ∃ t, ['H', ' '] = t ++ [' '] :=
  (claim_C10 asciiEnc [Object.string [72] StringFormat.literal] [] []).2 ['H', ' '] rfl

theorem collectTextOp_neutral {e : Encoding} {o : Object} (h : isNeutral o) :
    ∀ acc, collectTextOp e o acc = (acc, none) := by
  cases o with
  | string b f => exact absurd h (by simp [isNeutral])
  | array a => exact absurd h (by simp [isNeutral])
  | integer i =>
    intro acc
    have h' : ¬ i < -100 := by simp only [isNeutral] at h; omega
    simp [collectTextOp, h']
  | null => intro acc; rfl
  | boolean b => intro acc; rfl
  | real r => intro acc; rfl
  | name n => intro acc; rfl
  | dictionary d => intro acc; rfl
  | reference id => intro acc; rfl

theorem collectText_slotChars {e : Encoding} {arr : List Object} {cs : List Char}
    (h : SlotChars e arr cs) : ∀ acc, collectText e arr acc = (acc ++ cs, none) := by
  induction h with
  | nil => intro acc; simp [collectText]
  | str hb _ ih =>
    intro acc
    simp [collectText, collectTextOp, hb, ih]
  | skip hn _ ih =>
    intro acc
    simp [collectText, collectTextOp_neutral hn, ih]

theorem claimedRedistribute_cons_neutral {e : Encoding} {repl d : List Char}
    {sLen rLen : Nat} {o : Object} (h : isNeutral o) (rest : List Object) (k : Nat) :
    claimedRedistribute e repl d sLen rLen (o :: rest) k =
      o :: claimedRedistribute e repl d sLen rLen rest k := by
  cases o with
  | string b f => exact absurd h (by simp [isNeutral])
  | array a => exact absurd h (by simp [isNeutral])
  | null => rfl
  | boolean b => rfl
  | integer i => rfl
  | real r => rfl
  | name n => rfl
  | dictionary dd => rfl
  | reference id => rfl

theorem replaceArraySlots_cons_neutral {e : Encoding} {repl d : List Char}
    {sLen rLen : Nat} {o : Object} (h : isNeutral o) (rest : List Object) (cur : Nat) :
    replaceArraySlots e repl d sLen rLen (o :: rest) cur =
      o :: replaceArraySlots e repl d sLen rLen rest cur := by
  cases o with
  | string b f => exact absurd h (by simp [isNeutral])
  | array a => exact absurd h (by simp [isNeutral])
  | null => rfl
  | boolean b => rfl
  | integer i => rfl
  | real r => rfl
  | name n => rfl
  | dictionary dd => rfl
  | reference id => rfl

theorem claimedRedistribute_no_slots {e : Encoding} {repl d : List Char} {sLen rLen : Nat} :
    ∀ {arr : List Object} {cs : List Char}, SlotChars e arr cs → cs = [] →
      ∀ k, claimedRedistribute e repl d sLen rLen arr k = arr := by
  intro arr cs h
  induction h with
  | nil => intro _ _; rfl
  | str hb _ _ => intro hcs; simp at hcs
  | skip hn _ ih =>
    intro hcs k
    rw [claimedRedistribute_cons_neutral hn, ih hcs k]

theorem replaceArraySlots_eq_claimed {e : Encoding} {repl d : List Char} {m : Nat} :
    ∀ {arr : List Object} {cs : List Char}, SlotChars e arr cs →
      ∀ cur, cur + cs.length = m →
        replaceArraySlots e repl d m repl.length arr cur =
          claimedRedistribute e repl d m repl.length arr cur := by
  intro arr cs h
  induction h with
  | nil => intro cur hm; rfl
  | @str b f c rest cs hb hrest ih =>
    intro cur hm
    simp only [List.length_cons] at hm
    by_cases hlast : cur + 1 = m
    · have hcs : cs = [] := by
        have : cs.length = 0 := by omega
        exact List.length_eq_zero.mp this
      have h1 : cur = m - 1 := by omega
      rw [replaceArraySlots, claimedRedistribute, if_pos hlast, if_pos h1,
        claimedRedistribute_no_slots hrest hcs (cur + 1)]
    · have hne : ¬ cur = m - 1 := by omega
      by_cases hgt : repl.length < cur
      · rw [replaceArraySlots, claimedRedistribute, if_neg hlast, if_neg hne,
          if_pos hgt, if_pos hgt, ih (cur + 1) (by omega)]
      · by_cases heq : cur = repl.length
        · have hsub : substr repl cur 1 = [] := by
            simp [substr, heq, List.drop_length]
          rw [replaceArraySlots, claimedRedistribute, if_neg hlast, if_neg hne,
            if_neg hgt, if_neg hgt, if_pos heq, hsub, ih (cur + 1) (by omega)]
        · rw [replaceArraySlots, claimedRedistribute, if_neg hlast, if_neg hne,
            if_neg hgt, if_neg hgt, if_neg heq, ih (cur + 1) (by omega)]
  | skip hn _ ih =>
    intro cur hm
    rw [replaceArraySlots_cons_neutral hn, claimedRedistribute_cons_neutral hn, ih cur hm]

/-- C3 (amended): in exact-mode replacement, for an array operand whose
string slots each decode to one character (slot index = character index) and
whose other items are neutral, when the concatenated decoded text equals the
target the array is rewritten slot by slot as `claimedRedistribute`
describes: the slot at index `len(original) − 1` absorbs the whole remaining
suffix of the replacement; slots at indices strictly beyond the
replacement's character count become the null object; the slot at index
exactly equal to that count (when it is not the last slot) receives the
encoded default string, not null; every earlier slot receives one re-encoded
replacement character; non-string items are untouched. -/
theorem claim_C3 :
    ∀ (e : Encoding) (arr rest : List Object) (cs target repl d : List Char),
      SlotChars e arr cs → cs = target →
      tryToReplaceEncodedText e target repl d (Object.array arr :: rest) =
        (tryToReplaceEncodedText e target repl d rest).map
          (fun r =>
            Object.array (claimedRedistribute e repl d cs.length repl.length arr 0) :: r) := by
  intro e arr rest cs target repl d h htgt
  subst htgt
  have hc : collectText e arr [] = (cs, none) := by simpa using collectText_slotChars h []
  have heq := @replaceArraySlots_eq_claimed e repl d cs.length arr cs h 0 (by simp)
  simp [tryToReplaceEncodedText, hc, heq]

/-- C3 witness: the claim's own example.  Replacing the decoded text `"Hi"`
of the kerned array `[(H) -5 (i)]` with `"Bye"` re-encodes slot 0 to `"B"`
and lets slot 1 (the last original slot) absorb the suffix `"ye"`. -/
theorem claim_C3_witness :
    tryToReplaceEncodedText asciiEnc ['H', 'i'] ['B', 'y', 'e'] ['?']
        [Object.array [Object.string [72] StringFormat.literal,
          Object.integer (-5), Object.string [105] StringFormat.literal]] =
      Except.ok [Object.array [Object.string [66] StringFormat.literal,
        Object.integer (-5), Object.string [121, 101] StringFormat.literal]] := by
  have hd : SlotChars asciiEnc
      [Object.string [72] StringFormat.literal, Object.integer (-5),
        Object.string [105] StringFormat.literal] ['H', 'i'] := by
    refine SlotChars.str rfl (SlotChars.skip ?_ (SlotChars.str rfl SlotChars.nil))
    simp [isNeutral]
  have h := claim_C3 asciiEnc
    [Object.string [72] StringFormat.literal, Object.integer (-5),
      Object.string [105] StringFormat.literal]
    [] ['H', 'i'] ['H', 'i'] ['B', 'y', 'e'] ['?'] hd rfl
  rw [h]
  rfl

/-- C3 counterexample: array `[(H) (i) (!)]` (decoded `"Hi!"`), replacement
`"B"` (one character), default `"?"`.  The claim says the string slot at
index 1 — beyond the replacement's character count — is set to the null
object (and every non-final slot receives exactly one re-encoded replacement
character); the code instead leaves it a string holding the encoded default
`"?"` (byte 63), because its guard is `cur > r_len`, not `cur >= r_len`. -/
theorem claim_C3_counterexample :
    tryToReplaceEncodedText asciiEnc ['H', 'i', '!'] ['B'] ['?']
        [Object.array [Object.string [72] StringFormat.literal,
          Object.string [105] StringFormat.literal,
          Object.string [33] StringFormat.literal]] =
      Except.ok [Object.array [Object.string [66] StringFormat.literal,
        Object.string [63] StringFormat.literal,
        Object.string [63] StringFormat.literal]] ∧
    Object.string [63] StringFormat.literal ≠ Object.null ∧
    Object.string [63] StringFormat.literal ≠
      Object.string (encode asciiEnc ['B'] ['?']) StringFormat.literal := by
  refine ⟨rfl, by simp, ?_⟩
  intro h
  injection h with h1 h2
  have h3 := congrArg (fun l => l.headI) h1
  simp [encode, encodeOne, asciiEnc] at h3

/-- C1 counterexample: on a page with a font whose encoding cannot be
resolved, `replace_text` and `replace_partial_text` do fail — the encoding
map is built with `collect::<Result<BTreeMap<_, _>>>()?`, so the first
resolution error aborts the whole call, contrary to the claim that the
failure is reported as a warning only. -/
theorem claim_C1_counterexample :
    replaceText envNoEnc 1 ['a'] ['b'] none =
      Except.error (Err.decodeErr "font encoding unavailable") ∧
    replacePartialText envNoEnc 1 ['a'] ['b'] none =
      Except.error (Err.decodeErr "font encoding unavailable") := by
  exact ⟨rfl, rfl⟩

/-- C1 (amended): if any font on the page fails encoding resolution,
`replace_text` and `replace_partial_text` return that error (the collection
of the encoding map short-circuits); the warning-only skip applies only to
`Tj`/`TJ` operations whose current font has no entry in the encoding map,
which are left unchanged while the rest of the page is still processed. -/
theorem claim_C1 :
    (∀ (env : DocEnv) (n : Nat) (pid : Nat × Nat) (fonts : List (String × Nat)) (err : Err)
        (t o s r : List Char) (d dc : Option (List Char)),
      env.pageIds[n - 1]? = some pid →
      env.getPageFonts pid = Except.ok fonts →
      collectEncodings env.getFontEncoding fonts = Except.error err →
      replaceText env n t o d = Except.error err ∧
        replacePartialText env n s r dc = Except.error err) ∧
    (∀ (encodings : List (String × Encoding)) (target repl d : List Char)
        (ops : List Object) (rest : List Operation),
      replaceOpsLoop encodings target repl d
          ({ operator := "Tj", operands := ops } :: rest) none =
        (replaceOpsLoop encodings target repl d rest none).map
          (fun r => { operator := "Tj", operands := ops } :: r)) := by
  constructor
  · intro env n pid fonts err t o s r d dc hp hf he
    constructor
    · simp [replaceText, hp, hf, he]
    · simp [replacePartialText, hp, hf, he]
  · intro encodings target repl d ops rest
    simp [replaceOpsLoop]

/-- C1 witness: the amended claim applied to the concrete failing
environment and to a concrete skipped operation. -/
theorem claim_C1_witness :
    (replaceText envNoEnc 1 ['a'] ['b'] none =
        Except.error (Err.decodeErr "font encoding unavailable") ∧
      replacePartialText envNoEnc 1 ['x'] ['y'] none =
        Except.error (Err.decodeErr "font encoding unavailable")) ∧
    replaceOpsLoop [] ['a'] ['b'] [] [{ operator := "Tj", operands := [Object.null] }] none =
      (replaceOpsLoop [] ['a'] ['b'] [] [] none).map
        (fun r => { operator := "Tj", operands := [Object.null] } :: r) :=
  ⟨claim_C1.1 envNoEnc 1 (1, 0) [("F1", 0)] (Err.decodeErr "font encoding unavailable")
      ['a'] ['b'] ['x'] ['y'] none none rfl rfl rfl,
    claim_C1.2 [] ['a'] ['b'] [] [Object.null] []⟩

/-- C9: with a 1-based page number of 0, `saturating_sub(1)` (Nat
subtraction here) gives page index 0, so on a non-empty document
`replace_text` and `replace_partial_text` behave exactly as for page
number 1 instead of failing with a page-not-found error. -/
theorem claim_C9 :
    ∀ (env : DocEnv) (t o s r : List Char) (d dc : Option (List Char)),
      env.pageIds ≠ [] →
      replaceText env 0 t o d = replaceText env 1 t o d ∧
        replacePartialText env 0 s r dc = replacePartialText env 1 s r dc := by
  intro env t o s r d dc hne
  obtain ⟨p, rest, hp⟩ : ∃ p rest, env.pageIds = p :: rest := by
    cases h : env.pageIds with
    | nil => exact absurd h hne
    | cons a l => exact ⟨a, l, rfl⟩
  constructor
  · show replaceText env 0 t o d = replaceText env 1 t o d
    simp [replaceText, hp]
  · show replacePartialText env 0 s r dc = replacePartialText env 1 s r dc
    simp [replacePartialText, hp]

/-- C9 witness: the equality at a concrete one-page environment. -/
theorem claim_C9_witness :
    replaceText envEmptyPage 0 ['a'] ['b'] none = replaceText envEmptyPage 1 ['a'] ['b'] none ∧
    replacePartialText envEmptyPage 0 ['c'] ['d'] none =
      replacePartialText envEmptyPage 1 ['c'] ['d'] none :=
  claim_C9 envEmptyPage ['a'] ['b'] ['c'] ['d'] none none (by simp [envEmptyPage])

theorem okTexts_ok_cons (s : List Char) (rest : List (Except Err (List Char))) :
    okTexts (Except.ok s :: rest) = s :: okTexts rest := rfl

theorem concatChunks_allOk :
    ∀ l : List (Except Err (List Char)), (∀ c ∈ l, ∃ s, c = Except.ok s) →
      concatChunks l = Except.ok (okTexts l).flatten := by
  intro l
  induction l with
  | nil => intro _; rfl
  | cons c rest ih =>
    intro h
    obtain ⟨s, hs⟩ := h c (List.mem_cons_self c rest)
    subst hs
    have h2 := ih fun c hc => h c (List.mem_cons_of_mem _ hc)
    rw [concatChunks, h2, okTexts_ok_cons]
    simp [Except.map]

theorem concatChunks_firstErr :
    ∀ (pre : List (Except Err (List Char))) (err : Err) (rest : List (Except Err (List Char))),
      (∀ c ∈ pre, ∃ s, c = Except.ok s) →
      concatChunks (pre ++ Except.error err :: rest) = Except.error err := by
  intro pre err rest
  induction pre with
  | nil => intro _; rfl
  | cons c pre ih =>
    intro h
    obtain ⟨s, hs⟩ := h c (List.mem_cons_self c pre)
    subst hs
    have h2 := ih fun c hc => h c (List.mem_cons_of_mem _ hc)
    rw [List.cons_append, concatChunks, h2]
    rfl

/-- C7: `extract_text` concatenates the chunk texts in order when every
chunk is successful, and otherwise returns the first error in the chunk
sequence; a page number missing from the page map contributes exactly one
`PageNumberNotFound` error element for that page while the other requested
pages are still processed in order. -/
theorem claim_C7 :
    (∀ (env : DocEnv) (ns : List Nat),
      (∀ c ∈ extractTextChunks env ns, ∃ s, c = Except.ok s) →
      extractText env ns = Except.ok (okTexts (extractTextChunks env ns)).flatten) ∧
    (∀ (env : DocEnv) (ns : List Nat) (pre : List (Except Err (List Char))) (err : Err)
        (rest : List (Except Err (List Char))),
      extractTextChunks env ns = pre ++ Except.error err :: rest →
      (∀ c ∈ pre, ∃ s, c = Except.ok s) →
      extractText env ns = Except.error err) ∧
    (∀ (env : DocEnv) (n : Nat) (ns₁ ns₂ : List Nat),
      assocLookup n env.pages = none →
      extractTextChunks env (ns₁ ++ n :: ns₂) =
        extractTextChunks env ns₁ ++
          Except.error (Err.pageNumberNotFound n) :: extractTextChunks env ns₂) := by
  refine ⟨?_, ?_, ?_⟩
  · intro env ns h
    exact concatChunks_allOk _ h
  · intro env ns pre err rest hsplit hpre
    rw [extractText, hsplit]
    exact concatChunks_firstErr pre err rest hpre
  · intro env n ns₁ ns₂ h
    have hpage : extractTextChunksFromPage env n =
        Except.error (Err.pageNumberNotFound n) := by
      simp [extractTextChunksFromPage, h]
    simp [extractTextChunks, hpage]

/-- C7 witness: the three parts of the claim at concrete environments —
an all-successful page, a failing page propagating its error, and a missing
page number contributing exactly one error element without stopping the
others. -/
theorem claim_C7_witness :
    extractText envEmptyPage [1] =
      Except.ok (okTexts (extractTextChunks envEmptyPage [1])).flatten ∧
    extractText envEmptyPage [2] = Except.error (Err.pageNumberNotFound 2) ∧
    extractTextChunks envEmptyPage ([1] ++ 2 :: [1]) =
      extractTextChunks envEmptyPage [1] ++
        Except.error (Err.pageNumberNotFound 2) :: extractTextChunks envEmptyPage [1] := by
  have hch : extractTextChunks envEmptyPage [1] = [] := rfl
  refine ⟨?_, ?_, ?_⟩
  · exact claim_C7.1 envEmptyPage [1] (by rw [hch]; intro c hc; cases hc)
  · exact claim_C7.2.1 envEmptyPage [2] [] (Err.pageNumberNotFound 2) [] rfl
      (by intro c hc; cases hc)
  · exact claim_C7.2.2 envEmptyPage 2 [1] [1] rfl

theorem readBE_ok {content : List Nat} {pos w : Nat} {p : Nat × Nat}
    (h : readBE content pos w = Except.ok p) : p.2 = pos + w := by
  unfold readBE at h
  split at h
  · injection h with h1
    rw [h1.symm]
  · cases h

/-- C2 counterexample: with `W = [1,1,1]`, a row whose type field is 7
(unrecognized) is processed successfully and records no entry, but the
reader advances by only 1 byte (the type field), not by
`W[0]+W[1]+W[2] = 3` — the `_ => {}` arm never reads the second and third
fields. -/
theorem claim_C2_counterexample :
    processRow 1 1 1 [7, 0, 0] 0 = Except.ok (none, 1) ∧ (1 : Nat) ≠ 1 + 1 + 1 := by
  exact ⟨rfl, by decide⟩

/-- C2 (amended): a row whose type field is 0, 1 or 2 consumes exactly
`W[0]+W[1]+W[2]` bytes; a row with any other type value records no entry and
does not fail, but consumes only `W[0]` bytes (the type field), so the
reader does not advance by a full row's width for such rows. -/
theorem claim_C2 :
    ∀ (w0 w1 w2 : Nat) (content : List Nat) (pos ty pos1 : Nat),
      (if w0 ≠ 0 then readBE content pos w0 else Except.ok (1, pos)) =
        Except.ok (ty, pos1) →
      ((ty = 0 ∨ ty = 1 ∨ ty = 2) →
        ∀ (r : Option XrefEntry) (pos' : Nat),
          processRow w0 w1 w2 content pos = Except.ok (r, pos') →
          pos' = pos + (w0 + w1 + w2)) ∧
      (¬(ty = 0 ∨ ty = 1 ∨ ty = 2) →
        processRow w0 w1 w2 content pos = Except.ok (none, pos + w0)) := by
  intro w0 w1 w2 content pos ty pos1 ht
  have hpos1 : pos1 = pos + w0 := by
    by_cases hw : w0 ≠ 0
    · rw [if_pos hw] at ht
      exact readBE_ok ht
    · rw [if_neg hw] at ht
      injection ht with h1
      have h2 := (Prod.mk.injEq _ _ _ _ ▸ h1).2
      omega
  constructor
  · intro hty r pos' hp
    unfold processRow at hp
    rw [ht] at hp
    dsimp only at hp
    rcases hty with h0 | h1 | h2
    · rw [if_pos h0] at hp
      rcases hr2 : readBE content pos1 w1 with e | r2
      · rw [hr2] at hp
        dsimp only at hp
        cases hp
      · rw [hr2] at hp
        dsimp only at hp
        rcases hr3 : readBE content r2.2 w2 with e | r3
        · rw [hr3] at hp
          dsimp only at hp
          cases hp
        · rw [hr3] at hp
          dsimp only at hp
          simp only [Except.ok.injEq, Prod.mk.injEq] at hp
          have e2 := readBE_ok hr2
          have e3 := readBE_ok hr3
          omega
    · have hne0 : ¬ (ty = 0) := by omega
      rw [if_neg hne0, if_pos h1] at hp
      rcases hr2 : readBE content pos1 w1 with e | r2
      · rw [hr2] at hp
        dsimp only at hp
        cases hp
      · rw [hr2] at hp
        dsimp only at hp
        have e2 := readBE_ok hr2
        by_cases hw2 : w2 ≠ 0
        · rw [if_pos hw2] at hp
          rcases hr3 : readBE content r2.2 w2 with e | g
          · rw [hr3] at hp
            dsimp only at hp
            cases hp
          · rw [hr3] at hp
            dsimp only at hp
            simp only [Except.ok.injEq, Prod.mk.injEq] at hp
            have e3 := readBE_ok hr3
            omega
        · rw [if_neg hw2] at hp
          dsimp only at hp
          simp only [Except.ok.injEq, Prod.mk.injEq] at hp
          omega
    · have hne0 : ¬ (ty = 0) := by omega
      have hne1 : ¬ (ty = 1) := by omega
      rw [if_neg hne0, if_neg hne1, if_pos h2] at hp
      rcases hr2 : readBE content pos1 w1 with e | r2
      · rw [hr2] at hp
        dsimp only at hp
        cases hp
      · rw [hr2] at hp
        dsimp only at hp
        rcases hr3 : readBE content r2.2 w2 with e | r3
        · rw [hr3] at hp
          dsimp only at hp
          cases hp
        · rw [hr3] at hp
          dsimp only at hp
          simp only [Except.ok.injEq, Prod.mk.injEq] at hp
          have e2 := readBE_ok hr2
          have e3 := readBE_ok hr3
          omega
  · intro hty
    have h0 : ¬ (ty = 0) := fun h => hty (Or.inl h)
    have h1 : ¬ (ty = 1) := fun h => hty (Or.inr (Or.inl h))
    have h2 : ¬ (ty = 2) := fun h => hty (Or.inr (Or.inr h))
    unfold processRow
    rw [ht]
    dsimp only
    rw [if_neg h0, if_neg h1, if_neg h2, hpos1]

/-- C2 witness: a concrete type-0 row under `W = [1,1,1]` consumes all three
bytes. -/
theorem claim_C2_witness :
    processRow 1 1 1 [0, 5, 6] 0 = Except.ok (none, 3) ∧ (3 : Nat) = 0 + (1 + 1 + 1) :=
  ⟨rfl, (claim_C2 1 1 1 [0, 5, 6] 0 0 1 rfl).1 (Or.inl rfl) none 3 rfl⟩

theorem decodeXrefInner_dict :
    ∀ (dict : Dictionary) (content : List Nat) (x : Xref) (d : Dictionary),
      decodeXrefInner dict content = Except.ok (x, d) →
      d = removeKey (removeKey (removeKey dict "Length") "W") "Index" := by
  intro dict content x d h
  unfold decodeXrefInner at h
  rcases hr : decodeXrefRows dict content with e | x0
  · rw [hr] at h
    cases h
  · rw [hr] at h
    dsimp only at h
    injection h with h1
    exact ((Prod.mk.injEq _ _ _ _).mp h1).2.symm

/-- C8: on every successful decode, the returned dictionary is exactly the
input stream's dictionary with the `Length`, `W` and `Index` keys removed;
all other entries (and their order) are untouched. -/
theorem claim_C8 :
    ∀ (decompress : StreamObj → Except Err (List Nat)) (stream : StreamObj)
      (x : Xref) (d : Dictionary),
      decodeXrefStream decompress stream = Except.ok (x, d) →
      d = removeKey (removeKey (removeKey stream.dict "Length") "W") "Index" := by
  intro decompress stream x d h
  unfold decodeXrefStream at h
  rcases hc : (if isCompressed stream then decompress stream else Except.ok stream.content)
      with e | c
  · rw [hc] at h; cases h
  · rw [hc] at h
    exact decodeXrefInner_dict stream.dict c x d h

/-- C8 witness: decoding the concrete stream `streamW` succeeds, and its
returned dictionary is the input dictionary minus `Length`, `W`, `Index`
(here keeping `Size` and `Foo`). -/
theorem claim_C8_witness :
    ([("Size", Object.integer 1), ("Foo", Object.null)] : Dictionary) =
      removeKey (removeKey (removeKey streamW.dict "Length") "W") "Index" :=
  claim_C8 (fun _ => Except.error Err.ioErr) streamW xrefW
    [("Size", Object.integer 1), ("Foo", Object.null)] rfl

theorem objStreamEntries_mem :
    ∀ (parse : List Nat → Option Object) (content : List Nat) (first : Nat)
      (pairs : List (Option Nat × Option Nat)) (id gen : Nat) (obj : Object),
      ((id, gen), obj) ∈ objStreamEntries parse content first pairs →
      gen = 0 ∧ ∃ rel, (some id, some rel) ∈ pairs ∧ first + rel < content.length ∧
        parse (content.drop (first + rel)) = some obj := by
  intro parse content first pairs
  induction pairs with
  | nil =>
    intro id gen obj h
    simp [objStreamEntries] at h
  | cons p rest ih =>
    intro id gen obj h
    rcases p with ⟨a, b⟩
    rcases a with _ | av
    · simp only [objStreamEntries] at h
      obtain ⟨g0, rel, hrel, hlt, hp⟩ := ih id gen obj h
      exact ⟨g0, rel, List.mem_cons_of_mem _ hrel, hlt, hp⟩
    · rcases b with _ | bv
      · simp only [objStreamEntries] at h
        obtain ⟨g0, rel, hrel, hlt, hp⟩ := ih id gen obj h
        exact ⟨g0, rel, List.mem_cons_of_mem _ hrel, hlt, hp⟩
      · simp only [objStreamEntries] at h
        by_cases hb : content.length ≤ first + bv
        · rw [if_pos hb] at h
          obtain ⟨g0, rel, hrel, hlt, hp⟩ := ih id gen obj h
          exact ⟨g0, rel, List.mem_cons_of_mem _ hrel, hlt, hp⟩
        · rw [if_neg hb] at h
          rcases hp : parse (content.drop (first + bv)) with _ | obj'
          · rw [hp] at h
            obtain ⟨g0, rel, hrel, hlt, hpp⟩ := ih id gen obj h
            exact ⟨g0, rel, List.mem_cons_of_mem _ hrel, hlt, hpp⟩
          · rw [hp] at h
            rcases List.mem_cons.mp h with heq | hmem
            · have h1 := (Prod.mk.injEq _ _ _ _).mp heq
              have h2 := (Prod.mk.injEq _ _ _ _).mp h1.1
              refine ⟨h2.2, bv, ?_, by omega, ?_⟩
              · rw [h2.1]
                exact List.mem_cons_self _ _
              · rw [hp, h1.2]
            · obtain ⟨g0, rel, hrel, hlt, hpp⟩ := ih id gen obj hmem
              exact ⟨g0, rel, List.mem_cons_of_mem _ hrel, hlt, hpp⟩

theorem toPairs_append_even :
    ∀ (ns : List (Option Nat)), ns.length % 2 = 0 → ∀ x,
      toPairs (ns ++ [x]) = toPairs ns
  | [], _, _ => rfl
  | [_], h, _ => by simp at h
  | a :: b :: rest, h, x => by
    have h' : rest.length % 2 = 0 := by
      simp only [List.length_cons] at h
      omega
    simp only [List.cons_append, toPairs, List.append_eq]
    rw [toPairs_append_even rest h' x]

/-- C5: every entry produced by a successful `ObjectStream::new` has
generation 0 and comes from a complete index pair whose two numbers both
parsed, with absolute offset `First + rel` inside `[First, content.len())`
and a successful external parse at that offset; an odd trailing index
integer is discarded; an out-of-bounds pair is skipped without failing the
decode. -/
theorem claim_C5 :
    (∀ (parse : List Nat → Option Object) (dict : Dictionary) (content : List Nat)
        (entries : List ((Nat × Nat) × Object)),
      objectStreamNew parse dict content = Except.ok entries →
      ∀ id gen obj, ((id, gen), obj) ∈ entries →
        gen = 0 ∧ ∃ first rel,
          streamFirstOffset dict = Except.ok first ∧
          (some id, some rel) ∈ toPairs (parseIndexNumbers (content.take first)) ∧
          first ≤ first + rel ∧ first + rel < content.length ∧
          parse (content.drop (first + rel)) = some obj) ∧
    (∀ (parse : List Nat → Option Object) (content : List Nat) (first : Nat)
        (ns : List (Option Nat)) (x : Option Nat),
      ns.length % 2 = 0 →
      objStreamEntries parse content first (toPairs (ns ++ [x])) =
        objStreamEntries parse content first (toPairs ns)) ∧
    (∀ (parse : List Nat → Option Object) (content : List Nat) (first a b : Nat)
        (rest : List (Option Nat × Option Nat)),
      content.length ≤ first + b →
      objStreamEntries parse content first ((some a, some b) :: rest) =
        objStreamEntries parse content first rest) := by
  refine ⟨?_, ?_, ?_⟩
  · intro parse dict content entries h id gen obj hmem
    unfold objectStreamNew at h
    by_cases hc : content = []
    · rw [if_pos hc] at h
      injection h with h1
      rw [h1.symm] at hmem
      cases hmem
    · rw [if_neg hc] at h
      rcases hf : streamFirstOffset dict with e | first
      · rw [hf] at h
        cases h
      · rw [hf] at h
        dsimp only at h
        by_cases hle : first ≤ content.length
        · rw [if_pos hle] at h
          by_cases hascii : (content.take first).all (fun b => decide (b < 128))
          · rw [if_pos hascii] at h
            rcases hn : dictGet dict "N" with e | no
            · rw [hn] at h; cases h
            · rw [hn] at h
              dsimp only at h
              rcases hi : asI64 no with e | i
              · rw [hi] at h; cases h
              · rw [hi] at h
                dsimp only at h
                injection h with h1
                rw [h1.symm] at hmem
                obtain ⟨g0, rel, hrel, hlt, hp⟩ := objStreamEntries_mem parse content first
                  (toPairs (parseIndexNumbers (content.take first))) id gen obj hmem
                exact ⟨g0, first, rel, rfl, hrel, Nat.le_add_right _ _, hlt, hp⟩
          · rw [if_neg hascii] at h; cases h
        · rw [if_neg hle] at h; cases h
  · intro parse content first ns x h
    rw [toPairs_append_even ns h x]
  · intro parse content first a b rest h
    simp only [objStreamEntries]
    rw [if_pos h]

/-- C5 witness: a concrete decode with one valid pair, one discarded odd
trailing integer, and one skipped out-of-bounds pair. -/
theorem claim_C5_witness :
    ((0 : Nat) = 0 ∧ ∃ first rel,
      streamFirstOffset dict5 = Except.ok first ∧
      (some 3, some rel) ∈ toPairs (parseIndexNumbers (content5.take first)) ∧
      first ≤ first + rel ∧ first + rel < content5.length ∧
      parse0 (content5.drop (first + rel)) = some Object.null) ∧
    objStreamEntries parse0 content5 4 (toPairs ([some 3, some 0] ++ [some 9])) =
      objStreamEntries parse0 content5 4 (toPairs [some 3, some 0]) ∧
    objStreamEntries parse0 content5 4 ((some 1, some 99) :: []) =
      objStreamEntries parse0 content5 4 [] :=
  ⟨claim_C5.1 parse0 dict5 content5 [((3, 0), Object.null)] rfl 3 0 Object.null
      (List.mem_cons_self _ _),
    claim_C5.2.1 parse0 content5 4 [some 3, some 0] (some 9) rfl,
    claim_C5.2.2 parse0 content5 4 1 99 [] (by decide)⟩

theorem assocLookup_perm {α β : Type} [DecidableEq α] :
    ∀ (l l' : List (α × β)), l.Perm l' → (l.map Prod.fst).Nodup →
      ∀ k, assocLookup k l = assocLookup k l' := by
  intro l l' hp
  induction hp with
  | nil => intro _ _; rfl
  | cons x p ih =>
    intro hnd k
    simp only [List.map_cons, List.nodup_cons] at hnd
    simp only [assocLookup]
    split
    · rfl
    · exact ih hnd.2 k
  | swap x y l =>
    intro hnd k
    simp only [List.map_cons, List.nodup_cons, List.mem_cons] at hnd
    have hxy : y.1 ≠ x.1 := fun h => hnd.1 (Or.inl h)
    simp only [assocLookup]
    by_cases h1 : k = y.1
    · rw [if_pos h1, if_neg (by rw [h1]; exact hxy), if_pos h1]
    · rw [if_neg h1]
      by_cases h2 : k = x.1
      · rw [if_pos h2, if_pos h2]
      · rw [if_neg h2, if_neg h2, if_neg h1]
  | trans p1 p2 ih1 ih2 =>
    intro hnd k
    have hnd2 := ((p1.map Prod.fst).nodup_iff).mp hnd
    exact (ih1 hnd k).trans (ih2 hnd2 k)

theorem objStreamEntries_keys_sublist :
    ∀ (parse : List Nat → Option Object) (content : List Nat) (first : Nat)
      (pairs : List (Option Nat × Option Nat)),
      ((objStreamEntries parse content first pairs).map Prod.fst).Sublist
        ((pairs.filterMap fun p => p.1).map fun i => (i, 0)) := by
  intro parse content first pairs
  induction pairs with
  | nil => simp [objStreamEntries]
  | cons p rest ih =>
    rcases p with ⟨a, b⟩
    rcases a with _ | av
    · simpa [objStreamEntries] using ih
    · rcases b with _ | bv
      · simp only [objStreamEntries, List.filterMap_cons, List.map_cons]
        exact ih.cons _
      · simp only [objStreamEntries, List.filterMap_cons, List.map_cons]
        by_cases hb : content.length ≤ first + bv
        · rw [if_pos hb]
          exact ih.cons _
        · rw [if_neg hb]
          rcases hp : parse (content.drop (first + bv)) with _ | obj'
          · exact ih.cons _
          · simp only [List.map_cons]
            exact ih.cons₂ _

/-- C6: for an index block without duplicate object numbers, the mapping
assembled from the sequential entry list and the mapping assembled from any
permutation of it (the unspecified completion order of the parallel
fan-out, modelled from the spec) agree on every id. -/
theorem claim_C6 :
    ∀ (parse : List Nat → Option Object) (content : List Nat) (first : Nat)
      (numbers : List (Option Nat)) (par : List ((Nat × Nat) × Object)),
      (objStreamEntries parse content first (toPairs numbers)).Perm par →
      (pairIds numbers).Nodup →
      ∀ k, toMap (objStreamEntries parse content first (toPairs numbers)) k = toMap par k := by
  intro parse content first numbers par hperm hnd k
  have hsub := objStreamEntries_keys_sublist parse content first (toPairs numbers)
  have hkeys : ((objStreamEntries parse content first (toPairs numbers)).map Prod.fst).Nodup := by
    refine List.Nodup.sublist hsub ?_
    refine List.Nodup.map ?_ hnd
    intro i j hij
    exact ((Prod.mk.injEq _ _ _ _).mp hij).1
  have hrev : ((objStreamEntries parse content first (toPairs numbers)).reverse).Perm
      par.reverse :=
    ((objStreamEntries parse content first (toPairs numbers)).reverse_perm).trans
      (hperm.trans par.reverse_perm.symm)
  have hkeysrev :
      (((objStreamEntries parse content first (toPairs numbers)).reverse).map Prod.fst).Nodup := by
    rw [List.map_reverse]
    exact List.nodup_reverse.mpr hkeys
  exact assocLookup_perm _ _ hrev hkeysrev k

/-- C6 witness: a concrete two-entry stream; the map built from the
sequential order and from the swapped (parallel-completion) order agree. -/
theorem claim_C6_witness :
    toMap (objStreamEntries parse0 content6 4 (toPairs [some 1, some 0, some 2, some 1]))
        (1, 0) =
      toMap [((2, 0), Object.null), ((1, 0), Object.null)] (1, 0) := by
  refine claim_C6 parse0 content6 4 [some 1, some 0, some 2, some 1]
    [((2, 0), Object.null), ((1, 0), Object.null)] ?_ (by decide) (1, 0)
  have h : objStreamEntries parse0 content6 4 (toPairs [some 1, some 0, some 2, some 1]) =
      [((1, 0), Object.null), ((2, 0), Object.null)] := rfl
  rw [h]
  exact List.Perm.swap _ _ _

end Lopdf
